import Mathlib

/-!
# Verification of the levanter data-cache pipeline specification

Shallow embedding of the cache-building / cache-reading / sharding /
windowing / batch-loading pipeline of the repository, together with the
GPT-2 LM head model's call contract, and proofs of the specified
properties.

Only the tests, the CLI driver and the GPT-2 model are present as source
files; the data modules themselves (`levanter.data.shard_cache`,
`levanter.data.text`, `levanter.data.sharded`) are absent, so those
components are modelled from the specification (each such definition is
marked `Modelled from the spec:`).  Code that is present (the test
datasets' `shard` implementations and `Gpt2LMHeadModel.__call__`) is
embedded directly.
-/

namespace Levanter

/-- Embeds `SequenceDataset.shard` from `tests/test_local_batch_dataset.py`:
`return SequenceDataset(self.sequences[shard_idx::num_shards])`, i.e. the
Python extended slice `xs[start::step]` taking elements at indices
`start, start + step, start + 2*step, ...`. -/
def sliceStride : List α → Nat → Nat → List α
  | [], _, _ => []
  | _ :: t, s + 1, step => sliceStride t s step
  | x :: t, 0, step => x :: sliceStride t (step - 1) step

/-- Modelled from the spec: the Cache Reader's `shard(shardIdx, numShards)`
view — "returns a view whose iteration yields exactly the rows satisfying
`global_row_index mod numShards == shardIdx`" (§4.5), over the manifest's
global row order. -/
def shardView (rows : List α) (shardIdx numShards : Nat) : List α :=
  (rows.enum.filter (fun p => p.1 % numShards == shardIdx)).map Prod.snd

/-- The global row indices that the `shard(shardIdx, numShards)` view draws
from the completed cache's manifest order. -/
def shardGlobalIndices (rows : List α) (shardIdx numShards : Nat) : List Nat :=
  (rows.enum.filter (fun p => p.1 % numShards == shardIdx)).map Prod.fst

/-- Modelled from the spec: the Sequence Windower (`TokenSeqDataset`, absent
from the sources) over a cache whose logical (optionally flattened) token
stream is `stream`, with fixed window length `L`: it exposes
`len = floor(total_token_count / L)` and random-access item
`i = tokens[i*L : (i+1)*L)`. -/
def tokenSeqItems (stream : List τ) (L : Nat) : List (List τ) :=
  (List.range (stream.length / L)).map (fun i => (stream.drop (i * L)).take L)

/-- Modelled from the spec: the Sharded Batch Loader (`levanter.data.sharded`,
absent from the sources) "assigns global example index `i` to the worker group
at data-parallel coordinate `i mod (number of data-parallel groups)`".  The
batch materialized for data-parallel coordinate `dpCoord` at a given step is
the examples of that step's global index range whose index is assigned to that
coordinate. -/
def workerBatch (ds : Nat → α) (numDpGroups batchSize step dpCoord : Nat) : List α :=
  (((List.range batchSize).map (fun j => step * batchSize + j)).filter
    (fun idx => idx % numDpGroups == dpCoord)).map ds

/-- The worker coordinates `(dataParallel, modelParallel)` of a `dp × mp` mesh. -/
def meshWorkers (dp mp : Nat) : List (Nat × Nat) :=
  (List.range dp).flatMap (fun d => (List.range mp).map (fun m => (d, m)))

/-- Modelled from the spec: the per-worker batch the loader hands to mesh
worker `w = (dataParallel, modelParallel)`: example selection is a function of
the data-parallel coordinate `w.1` alone. -/
def loaderBatches (ds : Nat → α) (numDpGroups batchSize step : Nat)
    (w : Nat × Nat) : List α :=
  workerBatch ds numDpGroups batchSize step w.1

/-- Modelled from the spec: `check_sharded_consistency` — "verifies, for any
two workers expected to hold equal data, that their materialized batches are
bit-identical": here, every pair of mesh workers with equal data-parallel
coordinate must hold equal batches. -/
def checkShardedConsistency [DecidableEq α] (batches : Nat × Nat → List α)
    (dp mp : Nat) : Bool :=
  (meshWorkers dp mp).all (fun w1 =>
    (meshWorkers dp mp).all (fun w2 =>
      w1.1 != w2.1 || batches w1 == batches w2))

/-- Modelled from the spec: the Cache Builder's per-shard chunk sealing
(§4.2): a worker "accumulates output until `rowsPerChunk` rows are ready,
seals a chunk, advances its cursor, and repeats until its shard is exhausted";
a chunk "holds ≤ `rowsPerChunk` rows (last chunk of a shard may be short)"
(§3).  `chunkList n rows` is the sequence of sealed chunks of one shard in
sealing order, for `n = rowsPerChunk ≥ 1`. -/
def chunkList (n : Nat) : List ρ → List (List ρ)
  | [] => []
  | x :: xs => (x :: xs.take (n - 1)) :: chunkList n (xs.drop (n - 1))
  termination_by l => l.length
  decreasing_by simp only [List.length_drop, List.length_cons]; omega

/-- Modelled from the spec: the Manifest — an "ordered list of sealed chunks
with cumulative row offsets" (§3).  Each entry records a chunk's row count. -/
def manifestRowCounts (chunks : List (List ρ)) : List Nat :=
  chunks.map List.length

/-- Cumulative row offsets of a manifest: entry `i` is the global row index at
which chunk `i` starts (monotone by construction, used for binary search in
§4.3). -/
def manifestOffsets (chunks : List (List ρ)) : List Nat :=
  (List.range chunks.length).map (fun i => ((chunks.take i).map List.length).sum)

/-- A manifest is valid when its cumulative offsets are monotone. -/
def manifestValid (chunks : List (List ρ)) : Bool :=
  (manifestOffsets chunks).Pairwise (· ≤ ·)

/-- Modelled from the spec: `flatten_docs = true` "concatenates every
document's token column into one logical stream, discarding document
boundaries"; `enforce_eos = true` "additionally inserts an end-of-sequence
marker between flattened documents" (§4.5).  `eos = none` encodes
`enforce_eos = false`. -/
def flattenDocs (rows : List (List Nat)) (eos : Option Nat) : List Nat :=
  match eos with
  | none => rows.flatten
  | some e => (rows.intersperse [e]).flatten

/-- An operation on the Metrics Monitor Bus: the builder emits an event, or a
monitor attaches (possibly mid-build). -/
inductive BusOp (ε μ : Type) where
  | emit (e : ε)
  | attach (m : μ)
deriving DecidableEq

/-- Modelled from the spec: the Metrics Monitor Bus (§4.4, §9) — an observer
list "with a replay log so late subscribers catch up without losing events".
`log` is the emission-ordered list of all events so far; each subscriber is
paired with the list of events it has received, in delivery order. -/
structure MetricsBus (ε μ : Type) where
  log : List ε
  subscribers : List (μ × List ε)
deriving DecidableEq

/-- One bus transition: `emit` appends the event to the log and delivers it to
every current subscriber; `attach` registers a monitor and immediately replays
the full past log to it. -/
def MetricsBus.step (b : MetricsBus ε μ) : BusOp ε μ → MetricsBus ε μ
  | .emit e =>
    { log := b.log ++ [e],
      subscribers := b.subscribers.map (fun s => (s.1, s.2 ++ [e])) }
  | .attach m =>
    { log := b.log, subscribers := (m, b.log) :: b.subscribers }

/-- Run the bus from the empty initial state over a sequence of operations. -/
def MetricsBus.run (ops : List (BusOp ε μ)) : MetricsBus ε μ :=
  ops.foldl MetricsBus.step ⟨[], []⟩

/-- Modelled from the spec: the sealed-chunk records one shard contributes to
the manifest.  A worker reads the shard's rows from the source
(`open_shard_at_row(name, 0)`), applies the pure, deterministic Processor
(§4.1), seals chunks of `rowsPerChunk` rows (§4.2), and each sealed chunk's
manifest entry records its shard, its monotonically increasing chunk index
within the shard, and its row count (§3). -/
def shardChunkRecords [DecidableEq σ] (source : σ → List ρ) (proc : ρ → ρ')
    (rowsPerChunk : Nat) (name : σ) : List (σ × Nat × Nat) :=
  (chunkList rowsPerChunk ((source name).map proc)).enum.map
    (fun p => (name, p.1, p.2.length))

/-- Modelled from the spec: the append-order build log of one run — workers
claim shards and append each finished shard's sealed-chunk entries under
mutual exclusion; `ord` is the nondeterministic order in which shards complete
in this run. -/
def buildLog [DecidableEq σ] (source : σ → List ρ) (proc : ρ → ρ')
    (rowsPerChunk : Nat) (ord : List σ) : List (σ × Nat × Nat) :=
  ord.flatMap (shardChunkRecords source proc rowsPerChunk)

/-- Modelled from the spec: the completed manifest a build run persists —
sealed chunks in shard-then-chunk order, keyed by the source's `shard_names()`
order (§3 "manifest row order within a shard matches source row order", §4.5
iteration in "shard-then-chunk-then-row order"). -/
def finalManifest [DecidableEq σ] (source : σ → List ρ) (proc : ρ → ρ')
    (rowsPerChunk : Nat) (shardNames : List σ) (ord : List σ) :
    List (σ × Nat × Nat) :=
  shardNames.flatMap (fun nm =>
    (buildLog source proc rowsPerChunk ord).filter (fun r => r.1 == nm))

/-- Embeds haliax's `maybe_rng_split(key, 2)` as used by
`Gpt2LMHeadModel.__call__`: a present PRNG key is split into two fresh keys,
an absent key yields two absent keys. -/
def maybeRngSplit2 (split : κ → κ × κ) : Option κ → Option κ × Option κ
  | none => (none, none)
  | some k => (some (split k).1, some (split k).2)

/-- Embeds `Gpt2LMHeadModel` from `src/levanter/models/gpt2.py` at the level
of its call contract: the sub-modules reached by `__call__` —
`embeddings.embed`, the transformer, and `embeddings.unembed` — are the
source's components abstracted as functions of exactly the arguments the
source passes them (their floating-point numerics are not modelled).  `τ` is
the type of named arrays, `κ` of PRNG keys. -/
structure Gpt2LMHeadModel (τ κ : Type) where
  split : κ → κ × κ
  embed : τ → Bool → Option κ → τ
  transformerApply : τ → Option τ → Bool → Option κ → τ
  unembed : τ → τ

/-- Embeds `Gpt2LMHeadModel.__call__` (gpt2.py lines 324–333): raise
`ValueError("key must be provided for training")` when `not inference and key
is None`; otherwise split the key, embed the input ids, apply the transformer,
and return the unembedded logits.  Raising is modelled as `Except.error`. -/
def Gpt2LMHeadModel.call (m : Gpt2LMHeadModel τ κ) (input_ids : τ)
    (attn_mask : Option τ) (inference : Bool) (key : Option κ) :
    Except String τ :=
  if !inference && key.isNone then
    .error "key must be provided for training"
  else
    let ks := maybeRngSplit2 m.split key
    let x := m.embed input_ids inference ks.1
    let x := m.transformerApply x attn_mask inference ks.2
    .ok (m.unembed x)

/-- A concrete instantiation used to evaluate the call contract. -/
def demoGpt2 : Gpt2LMHeadModel Nat Nat where
  split := fun k => (k + 1, k + 2)
  embed := fun t _ _ => t + 10
  transformerApply := fun t _ _ _ => t * 2
  unembed := fun t => t + 3

/-! ## Theorems -/

theorem sliceStride_nil (s step : Nat) : sliceStride ([] : List α) s step = [] := by
  cases s <;> rfl

theorem sliceStride_cons_succ (x : α) (t : List α) (s step : Nat) :
    sliceStride (x :: t) (s + 1) step = sliceStride t s step := rfl

theorem sliceStride_cons_zero (x : α) (t : List α) (step : Nat) :
    sliceStride (x :: t) 0 step = x :: sliceStride t (step - 1) step := rfl

/-- The slice `xs[i::N]` (for `i < N`) consists exactly of the elements whose
index, shifted by the enumeration offset `s`, is congruent to `s + i` mod `N`. -/
theorem sliceStride_eq_filter_enumFrom (N : Nat) (hN : 1 ≤ N) :
    ∀ (xs : List α) (i s : Nat), i < N →
      sliceStride xs i N =
        ((xs.enumFrom s).filter (fun p => p.1 % N == (s + i) % N)).map Prod.snd := by
  intro xs
  induction xs with
  | nil => intro i s _; simp [sliceStride_nil]
  | cons x t ih =>
    intro i s hi
    rw [List.enumFrom_cons]
    cases i with
    | zero =>
      have hpred : (s % N == (s + 0) % N) = true := by simp
      rw [sliceStride_cons_zero, List.filter_cons, if_pos hpred, List.map_cons]
      have hrec := ih (N - 1) (s + 1) (by omega)
      have harith : (s + 1 + (N - 1)) % N = (s + 0) % N := by
        have h1 : s + 1 + (N - 1) = s + N := by omega
        rw [h1, Nat.add_mod_right, Nat.add_zero]
      rw [hrec, harith]
    | succ j =>
      have hpred : ¬ ((s % N == (s + (j + 1)) % N) = true) := by
        simp only [beq_iff_eq]
        intro hmod
        have hj1 : (j + 1) % N = j + 1 := Nat.mod_eq_of_lt (by omega)
        have h1 : (s + (j + 1)) % N = (s % N + (j + 1)) % N := by
          conv_lhs => rw [Nat.add_mod, hj1]
        have ha : s % N < N := Nat.mod_lt _ (by omega)
        rw [h1] at hmod
        rcases Nat.lt_or_ge (s % N + (j + 1)) N with hlt | hge
        · rw [Nat.mod_eq_of_lt hlt] at hmod; omega
        · have h2 : (s % N + (j + 1)) % N = s % N + (j + 1) - N := by
            rw [Nat.mod_eq_sub_mod hge, Nat.mod_eq_of_lt (by omega)]
          rw [h2] at hmod; omega
      rw [sliceStride_cons_succ, List.filter_cons, if_neg hpred]
      have hrec := ih j (s + 1) (by omega)
      have harith : (s + 1 + j) % N = (s + (j + 1)) % N := by
        have h1 : s + 1 + j = s + (j + 1) := by omega
        rw [h1]
      rw [hrec, harith]

theorem sliceStride_eq_shardView (rows : List α) (shardIdx numShards : Nat)
    (hN : 1 ≤ numShards) (hi : shardIdx < numShards) :
    sliceStride rows shardIdx numShards = shardView rows shardIdx numShards := by
  have h := sliceStride_eq_filter_enumFrom numShards hN rows shardIdx 0 hi
  have henum : rows.enum = rows.enumFrom 0 := rfl
  rw [shardView, henum]
  simpa [Nat.mod_eq_of_lt hi] using h

theorem flatMap_congr_mem {f g : α → List β} :
    ∀ l : List α, (∀ a ∈ l, f a = g a) → l.flatMap f = l.flatMap g := by
  intro l
  induction l with
  | nil => intro _; rfl
  | cons x t ih =>
    intro h
    rw [List.flatMap_cons, List.flatMap_cons, h x (by simp),
      ih (fun a ha => h a (by simp [ha]))]

/-- Concatenating the slices `xs[0::N], xs[1::N], ..., xs[N-1::N]` is a
permutation of `xs`. -/
theorem sliceStride_range_flatMap_perm (M : Nat) :
    ∀ xs : List α, ((List.range (M + 1)).flatMap fun i => sliceStride xs i (M + 1)).Perm xs := by
  intro xs
  induction xs with
  | nil =>
    have h : ((List.range (M + 1)).flatMap fun i => sliceStride ([] : List α) i (M + 1)) = [] :=
      List.flatMap_eq_nil_iff.mpr (fun x _ => sliceStride_nil x (M + 1))
    rw [h]
  | cons x t ih =>
    have hsplit : ((List.range (M + 1)).flatMap fun i => sliceStride t i (M + 1))
        = ((List.range M).flatMap fun i => sliceStride t i (M + 1)) ++ sliceStride t M (M + 1) := by
      rw [List.range_succ, List.flatMap_append, List.flatMap_cons, List.flatMap_nil,
        List.append_nil]
    rw [List.range_succ_eq_map, List.flatMap_cons, List.flatMap_map]
    simp only [Function.comp_def, Nat.succ_eq_add_one, sliceStride_cons_succ]
    rw [sliceStride_cons_zero]
    simp only [Nat.add_sub_cancel]
    rw [List.cons_append]
    refine List.Perm.cons x (List.Perm.trans List.perm_append_comm ?_)
    rw [← hsplit]
    exact ih

theorem mem_shardGlobalIndices {rows : List α} {i N k : Nat}
    (hk : k ∈ shardGlobalIndices rows i N) : k % N = i := by
  simp only [shardGlobalIndices, List.mem_map] at hk
  obtain ⟨p, hp, rfl⟩ := hk
  have h := (List.mem_filter.mp hp).2
  simpa using h

/-- Claim C1: for every completed cache with row multiset `R` (its rows in
manifest order) and every `numShards = N ≥ 1`, the `N` views
`shard(0, N) .. shard(N-1, N)` are pairwise disjoint (their global-row-index
sets do not intersect) and the multiset union of their rows is exactly `R`.
The statement quantifies over an arbitrary row list, so it is independent of
the shard count used at build time and does not require `N` to divide it. -/
theorem shard_views_partition_rows (rows : List α) (N : Nat) (hN : 1 ≤ N) :
    (((List.range N).flatMap fun i => shardView rows i N).Perm rows)
  ∧ (∀ i j k, i < N → j < N → i ≠ j →
      k ∈ shardGlobalIndices rows i N → k ∉ shardGlobalIndices rows j N) := by
  constructor
  · have hbind : ((List.range N).flatMap fun i => shardView rows i N)
        = ((List.range N).flatMap fun i => sliceStride rows i N) :=
      flatMap_congr_mem _ (fun i hi =>
        (sliceStride_eq_shardView rows i N hN (List.mem_range.mp hi)).symm)
    rw [hbind]
    obtain ⟨M, rfl⟩ : ∃ M, N = M + 1 := ⟨N - 1, by omega⟩
    exact sliceStride_range_flatMap_perm M rows
  · intro i j k _ _ hij hki hkj
    exact hij ((mem_shardGlobalIndices hki).symm.trans (mem_shardGlobalIndices hkj))

theorem shard_views_partition_rows_witness :
    1 ≤ 2 ∧
    ((((List.range 2).flatMap fun i => shardView [10, 11, 12, 13, 14] i 2).Perm
        [10, 11, 12, 13, 14])
     ∧ (∀ i j k, i < 2 → j < 2 → i ≠ j →
         k ∈ shardGlobalIndices [10, 11, 12, 13, 14] i 2 →
           k ∉ shardGlobalIndices [10, 11, 12, 13, 14] j 2)) :=
  ⟨by decide, shard_views_partition_rows [10, 11, 12, 13, 14] 2 (by decide)⟩

/-- Claim C2: for every completed cache (row list in manifest order) and every
`0 ≤ shardIdx < numShards`, iterating the view returned by
`shard(shardIdx, numShards)` — embedded from the source's stride-slice
`sequences[shard_idx::num_shards]` — yields exactly the rows whose global row
index satisfies `global_row_index % numShards == shardIdx`, and no others. -/
theorem shard_view_yields_exactly_mod_rows (rows : List α) (shardIdx numShards : Nat)
    (hN : 1 ≤ numShards) (hi : shardIdx < numShards) :
    sliceStride rows shardIdx numShards =
      (rows.enum.filter (fun p => p.1 % numShards == shardIdx)).map Prod.snd :=
  sliceStride_eq_shardView rows shardIdx numShards hN hi

theorem shard_view_yields_exactly_mod_rows_witness :
    1 ≤ 3 ∧ 1 < 3 ∧
    sliceStride [20, 21, 22, 23, 24, 25, 26] 1 3 =
      (([20, 21, 22, 23, 24, 25, 26] : List Nat).enum.filter
        (fun p => p.1 % 3 == 1)).map Prod.snd :=
  ⟨by decide, by decide,
    shard_view_yields_exactly_mod_rows [20, 21, 22, 23, 24, 25, 26] 1 3 (by decide) (by decide)⟩

theorem window_full_of_lt_len {stream : List τ} {L i : Nat}
    (hi : i < stream.length / L) : i * L + L ≤ stream.length := by
  have h1 : (i + 1) * L ≤ (stream.length / L) * L := Nat.mul_le_mul_right L hi
  have h2 : (stream.length / L) * L ≤ stream.length := Nat.div_mul_le_self _ _
  have h3 : (i + 1) * L = i * L + L := Nat.succ_mul i L
  omega

/-- Claim C3: the sequence-window dataset over a token stream of `total`
tokens with window length `L ≥ 1` has length `floor(total / L)`; item `i` is
the token slice `[i*L, (i+1)*L)` of the stream, has length exactly `L`
(trailing tokens that do not fill a window are dropped, never padded), and
each of its tokens is the corresponding stream token.  `L` is arbitrary, so in
particular the statement holds for `L = 1`, `L = total`, and `L = total + 1`. -/
theorem token_seq_dataset_windows (stream : List τ) (L : Nat) (hL : 1 ≤ L) :
    (tokenSeqItems stream L).length = stream.length / L
  ∧ (∀ i, i < stream.length / L →
      (tokenSeqItems stream L)[i]? = some ((stream.drop (i * L)).take L)
      ∧ ((stream.drop (i * L)).take L).length = L)
  ∧ (∀ i j, i < stream.length / L → j < L →
      ((tokenSeqItems stream L)[i]?.getD [])[j]? = stream[i * L + j]?) := by
  refine ⟨by simp [tokenSeqItems], ?_, ?_⟩
  · intro i hi
    constructor
    · simp [tokenSeqItems, List.getElem?_range hi]
    · have hfull := window_full_of_lt_len hi
      rw [List.length_take, List.length_drop]
      omega
  · intro i j hi hj
    have hitem : (tokenSeqItems stream L)[i]? = some ((stream.drop (i * L)).take L) := by
      simp [tokenSeqItems, List.getElem?_range hi]
    rw [hitem]
    simp only [Option.getD_some]
    rw [List.getElem?_take_of_lt hj, List.getElem?_drop]

theorem token_seq_dataset_windows_witness :
    1 ≤ 2 ∧
    ((tokenSeqItems [3, 1, 4, 1, 5] 2).length = ([3, 1, 4, 1, 5] : List Nat).length / 2
    ∧ (∀ i, i < ([3, 1, 4, 1, 5] : List Nat).length / 2 →
        (tokenSeqItems [3, 1, 4, 1, 5] 2)[i]? =
          some ((([3, 1, 4, 1, 5] : List Nat).drop (i * 2)).take 2)
        ∧ ((([3, 1, 4, 1, 5] : List Nat).drop (i * 2)).take 2).length = 2)
    ∧ (∀ i j, i < ([3, 1, 4, 1, 5] : List Nat).length / 2 → j < 2 →
        ((tokenSeqItems [3, 1, 4, 1, 5] 2)[i]?.getD [])[j]? =
          ([3, 1, 4, 1, 5] : List Nat)[i * 2 + j]?)) :=
  ⟨by decide, token_seq_dataset_windows [3, 1, 4, 1, 5] 2 (by decide)⟩

/-- Claim C4: for every dataset served through the sharded batch loader over a
`dp × mp` worker mesh, any two workers that share the same data-parallel
coordinate but differ in other mesh coordinates receive identical copies of
the same examples, and the consistency checker accepts the loader's batches;
the witness instantiates the mesh shapes 4×2 and 8×1. -/
theorem loader_batches_consistent_across_model_axis [DecidableEq α]
    (ds : Nat → α) (dp mp batchSize step : Nat) :
    (∀ w1 ∈ meshWorkers dp mp, ∀ w2 ∈ meshWorkers dp mp, w1.1 = w2.1 →
      loaderBatches ds dp batchSize step w1 = loaderBatches ds dp batchSize step w2)
  ∧ checkShardedConsistency (loaderBatches ds dp batchSize step) dp mp = true := by
  have hbat : ∀ w1 w2 : Nat × Nat, w1.1 = w2.1 →
      loaderBatches ds dp batchSize step w1 = loaderBatches ds dp batchSize step w2 := by
    intro w1 w2 h
    rw [loaderBatches, loaderBatches, h]
  refine ⟨fun w1 _ w2 _ h => hbat w1 w2 h, ?_⟩
  rw [checkShardedConsistency, List.all_eq_true]
  intro w1 _
  rw [List.all_eq_true]
  intro w2 _
  by_cases h : w1.1 = w2.1
  · have hb : (loaderBatches ds dp batchSize step w1 ==
        loaderBatches ds dp batchSize step w2) = true := by
      rw [beq_iff_eq]
      exact hbat w1 w2 h
    rw [hb, Bool.or_true]
  · have hne : (w1.1 != w2.1) = true := by
      rw [bne_iff_ne]
      exact h
    rw [hne, Bool.true_or]

theorem loader_batches_consistent_across_model_axis_witness :
    checkShardedConsistency (loaderBatches (fun i => i) 4 8 0) 4 2 = true ∧
    checkShardedConsistency (loaderBatches (fun i => i) 8 8 0) 8 1 = true :=
  ⟨(loader_batches_consistent_across_model_axis (fun i => i) 4 2 8 0).2,
   (loader_batches_consistent_across_model_axis (fun i => i) 8 1 8 0).2⟩

theorem chunkList_nil (n : Nat) : chunkList n ([] : List ρ) = [] := by
  rw [chunkList]

theorem chunkList_singleton (n : Nat) (x : ρ) : chunkList n [x] = [[x]] := by
  rw [chunkList]
  simp [chunkList_nil]

/-- Claim C5: building a cache from a source of 10 shards with one row each
and `rowsPerChunk = 3` produces exactly 10 chunks — one per shard; reading the
cache back (`flattenDocs = false` — rows as stored) yields exactly the 10
original rows, with row order within each shard preserved (the chunks
concatenate to the shards in build order) and shard order unconstrained
(`shardOrder` is an arbitrary permutation of the source's shards). -/
theorem ten_one_row_shards_build (shards shardOrder : List (List ρ))
    (hlen : shards.length = 10) (hone : ∀ s ∈ shards, s.length = 1)
    (hperm : shardOrder.Perm shards) :
    (shardOrder.flatMap (fun s => chunkList 3 s)).length = 10
  ∧ (∀ s ∈ shardOrder, (chunkList 3 s).length = 1)
  ∧ (shardOrder.flatMap (fun s => chunkList 3 s)).flatten = shardOrder.flatten
  ∧ shardOrder.flatten.Perm shards.flatten := by
  have hsingle : ∀ s ∈ shardOrder, chunkList 3 s = [s] := by
    intro s hs
    have h1 : s.length = 1 := hone s (hperm.mem_iff.mp hs)
    match s, h1 with
    | [x], _ => exact chunkList_singleton 3 x
  have hmap : (shardOrder.flatMap (fun s => chunkList 3 s))
      = shardOrder.flatMap (fun s => [s]) := flatMap_congr_mem _ hsingle
  refine ⟨?_, ?_, ?_, hperm.flatten⟩
  · rw [hmap, List.flatMap_singleton']
    rw [hperm.length_eq, hlen]
  · intro s hs
    rw [hsingle s hs]
    rfl
  · rw [hmap, List.flatMap_singleton']

theorem ten_one_row_shards_build_witness :
    ([[0], [1], [2], [3], [4], [5], [6], [7], [8], [9]] : List (List Nat)).length = 10
  ∧ (∀ s ∈ ([[0], [1], [2], [3], [4], [5], [6], [7], [8], [9]] : List (List Nat)), s.length = 1)
  ∧ (([[1], [0], [2], [3], [4], [5], [6], [7], [8], [9]] : List (List Nat)).Perm
      [[0], [1], [2], [3], [4], [5], [6], [7], [8], [9]])
  ∧ ((([[1], [0], [2], [3], [4], [5], [6], [7], [8], [9]] : List (List Nat)).flatMap
        (fun s => chunkList 3 s)).length = 10
    ∧ (∀ s ∈ ([[1], [0], [2], [3], [4], [5], [6], [7], [8], [9]] : List (List Nat)),
        (chunkList 3 s).length = 1)
    ∧ (([[1], [0], [2], [3], [4], [5], [6], [7], [8], [9]] : List (List Nat)).flatMap
        (fun s => chunkList 3 s)).flatten =
        ([[1], [0], [2], [3], [4], [5], [6], [7], [8], [9]] : List (List Nat)).flatten
    ∧ (([[1], [0], [2], [3], [4], [5], [6], [7], [8], [9]] : List (List Nat)).flatten.Perm
        ([[0], [1], [2], [3], [4], [5], [6], [7], [8], [9]] : List (List Nat)).flatten)) :=
  ⟨by decide, by decide, by decide,
    ten_one_row_shards_build
      [[0], [1], [2], [3], [4], [5], [6], [7], [8], [9]]
      [[1], [0], [2], [3], [4], [5], [6], [7], [8], [9]]
      (by decide) (by decide) (by decide)⟩

/-- Claim C6: building a cache from an empty shard (0 rows) produces 0 chunks
and a valid, empty manifest, and iterating the resulting cache yields nothing;
the build and the iteration are total functions here, so no error is raised. -/
theorem empty_shard_builds_empty_cache (n : Nat) :
    chunkList n ([] : List ρ) = []
  ∧ manifestRowCounts (chunkList n ([] : List ρ)) = []
  ∧ manifestOffsets (chunkList n ([] : List ρ)) = []
  ∧ manifestValid (chunkList n ([] : List ρ)) = true
  ∧ (chunkList n ([] : List ρ)).flatten = [] := by
  rw [chunkList_nil]
  refine ⟨rfl, rfl, rfl, ?_, rfl⟩
  rw [manifestValid]
  rfl

/-- Claim C9: building a cache from a single-shard source containing exactly
one empty document (its `input_ids` column has 0 tokens), with
`flatten_docs = true` and `enforce_eos = false`, produces one chunk holding
that document, and every chunk yielded by iterating the resulting cache has an
`input_ids` column of size 0; build and iteration are total functions of the
model, so no error occurs. -/
theorem empty_document_cache (n : Nat) :
    chunkList n [([] : List Nat)] = [[[]]]
  ∧ ∀ c ∈ chunkList n [([] : List Nat)], (flattenDocs c none).length = 0 := by
  refine ⟨chunkList_singleton n [], ?_⟩
  intro c hc
  rw [chunkList_singleton n []] at hc
  have hc' : c = [([] : List Nat)] := by simpa using hc
  rw [hc']
  rfl

theorem empty_document_cache_witness :
    chunkList 3 [([] : List Nat)] = [[[]]]
  ∧ ∀ c ∈ chunkList 3 [([] : List Nat)], (flattenDocs c none).length = 0 :=
  empty_document_cache 3

theorem MetricsBus.foldl_inv (ops : List (BusOp ε μ)) :
    ∀ b : MetricsBus ε μ, (∀ s ∈ b.subscribers, s.2 = b.log) →
      ∀ s ∈ (ops.foldl MetricsBus.step b).subscribers,
        s.2 = (ops.foldl MetricsBus.step b).log := by
  induction ops with
  | nil => intro b hb; exact hb
  | cons op t ih =>
    intro b hb
    rw [List.foldl_cons]
    refine ih _ ?_
    cases op with
    | emit e =>
      intro s hs
      simp only [MetricsBus.step, List.mem_map] at hs ⊢
      obtain ⟨s₀, hs₀, rfl⟩ := hs
      rw [hb s₀ hs₀]
    | attach m =>
      intro s hs
      simp only [MetricsBus.step, List.mem_cons] at hs ⊢
      rcases hs with rfl | hs
      · rfl
      · exact hb s hs

/-- Claim C7: a monitor may attach before or after events are emitted; after
any sequence of emissions and attachments, every subscriber has received
exactly the full emission log — a replay of the events emitted before it
attached, followed by the live events after — in emission order. -/
theorem late_subscribers_receive_all_events (ops : List (BusOp ε μ)) :
    ∀ s ∈ (MetricsBus.run ops).subscribers, s.2 = (MetricsBus.run ops).log :=
  MetricsBus.foldl_inv ops ⟨[], []⟩ (by intro s hs; simp at hs)

theorem late_subscribers_receive_all_events_witness :
    ((0 : Nat), [1, 2]) ∈
      (MetricsBus.run [BusOp.emit (1 : Nat), BusOp.attach (0 : Nat), BusOp.emit 2]).subscribers
  ∧ ((0 : Nat), [1, 2]).2 =
      (MetricsBus.run [BusOp.emit (1 : Nat), BusOp.attach (0 : Nat), BusOp.emit 2]).log :=
  ⟨by decide,
    late_subscribers_receive_all_events
      [BusOp.emit (1 : Nat), BusOp.attach (0 : Nat), BusOp.emit 2]
      ((0 : Nat), [1, 2]) (by decide)⟩

theorem fst_of_mem_shardChunkRecords [DecidableEq σ] {source : σ → List ρ}
    {proc : ρ → ρ'} {n : Nat} {name : σ} {r : σ × Nat × Nat}
    (hr : r ∈ shardChunkRecords source proc n name) : r.1 = name := by
  simp only [shardChunkRecords, List.mem_map] at hr
  obtain ⟨p, _, rfl⟩ := hr
  rfl

theorem filter_buildLog_not_mem [DecidableEq σ] {source : σ → List ρ}
    {proc : ρ → ρ'} {n : Nat} {ord : List σ} {nm : σ} (hnm : nm ∉ ord) :
    (buildLog source proc n ord).filter (fun r => r.1 == nm) = [] := by
  rw [List.filter_eq_nil_iff]
  intro r hr
  rw [buildLog, List.mem_flatMap] at hr
  obtain ⟨a, ha, hra⟩ := hr
  have h1 : r.1 = a := fst_of_mem_shardChunkRecords hra
  simp only [h1, beq_iff_eq]
  intro h2
  exact hnm (h2 ▸ ha)

theorem filter_buildLog_of_mem [DecidableEq σ] {source : σ → List ρ}
    {proc : ρ → ρ'} {n : Nat} {nm : σ} :
    ∀ {ord : List σ}, ord.Nodup → nm ∈ ord →
      (buildLog source proc n ord).filter (fun r => r.1 == nm) =
        shardChunkRecords source proc n nm := by
  intro ord
  induction ord with
  | nil => intro _ h; exact absurd h (List.not_mem_nil nm)
  | cons a t ih =>
    intro hnodup hmem
    rw [buildLog, List.flatMap_cons, List.filter_append]
    by_cases hcase : a = nm
    · subst hcase
      have hfst : ∀ r ∈ shardChunkRecords source proc n a, (r.1 == a) = true := by
        intro r hr
        rw [beq_iff_eq]
        exact fst_of_mem_shardChunkRecords hr
      rw [List.filter_eq_self.mpr hfst]
      have hnt : a ∉ t := (List.nodup_cons.mp hnodup).1
      rw [show (t.flatMap (shardChunkRecords source proc n)) = buildLog source proc n t from rfl,
        filter_buildLog_not_mem hnt, List.append_nil]
    · have hempty : (shardChunkRecords source proc n a).filter (fun r => r.1 == nm) = [] := by
        rw [List.filter_eq_nil_iff]
        intro r hr
        rw [fst_of_mem_shardChunkRecords hr]
        simp only [beq_iff_eq]
        exact hcase
      rw [hempty, List.nil_append]
      have hmem' : nm ∈ t := by
        rcases List.mem_cons.mp hmem with h | h
        · exact absurd h.symm hcase
        · exact h
      exact ih (List.nodup_cons.mp hnodup).2 hmem'

/-- Claim C8: for every source and (pure, deterministic) processor, two build
runs into fresh empty target directories yield byte-identical manifests:
whatever shard-completion orders `ord₁`, `ord₂` the two runs' scheduling
produces, the persisted manifests are equal. -/
theorem build_twice_identical_manifests [DecidableEq σ] (source : σ → List ρ)
    (proc : ρ → ρ') (rowsPerChunk : Nat) (shardNames ord₁ ord₂ : List σ)
    (hnodup : shardNames.Nodup)
    (h₁ : ord₁.Perm shardNames) (h₂ : ord₂.Perm shardNames) :
    finalManifest source proc rowsPerChunk shardNames ord₁ =
      finalManifest source proc rowsPerChunk shardNames ord₂ := by
  have hcanon : ∀ ord : List σ, ord.Perm shardNames →
      finalManifest source proc rowsPerChunk shardNames ord =
        shardNames.flatMap (shardChunkRecords source proc rowsPerChunk) := by
    intro ord hperm
    refine flatMap_congr_mem _ ?_
    intro nm hnm
    exact filter_buildLog_of_mem (hperm.nodup_iff.mpr hnodup) (hperm.mem_iff.mpr hnm)
  rw [hcanon ord₁ h₁, hcanon ord₂ h₂]

theorem build_twice_identical_manifests_witness :
    ([0, 1, 2] : List Nat).Nodup ∧ ([2, 0, 1] : List Nat).Perm [0, 1, 2]
  ∧ ([1, 2, 0] : List Nat).Perm [0, 1, 2]
  ∧ finalManifest (fun nm => List.replicate (nm + 4) nm) (fun r => r * 10) 3
      [0, 1, 2] [2, 0, 1] =
    finalManifest (fun nm => List.replicate (nm + 4) nm) (fun r => r * 10) 3
      [0, 1, 2] [1, 2, 0] :=
  ⟨by decide, by decide, by decide,
    build_twice_identical_manifests (fun nm => List.replicate (nm + 4) nm)
      (fun r => r * 10) 3 [0, 1, 2] [2, 0, 1] [1, 2, 0]
      (by decide) (by decide) (by decide)⟩

/-- Claim C10: `Gpt2LMHeadModel.__call__` raises `ValueError` exactly when
`inference` is false and `key` is `None`; under any other combination the
check does not fire and the model embeds the input ids, applies the
transformer, and returns the unembedded logits. -/
theorem gpt2_call_key_check (m : Gpt2LMHeadModel τ κ) (input_ids : τ)
    (attn_mask : Option τ) (inference : Bool) (key : Option κ) :
    (inference = false ∧ key = none →
      m.call input_ids attn_mask inference key =
        .error "key must be provided for training")
  ∧ (¬(inference = false ∧ key = none) →
      m.call input_ids attn_mask inference key =
        .ok (m.unembed (m.transformerApply
          (m.embed input_ids inference (maybeRngSplit2 m.split key).1)
          attn_mask inference (maybeRngSplit2 m.split key).2))) := by
  cases inference <;> cases key <;>
    simp [Gpt2LMHeadModel.call, maybeRngSplit2]

theorem gpt2_call_key_check_witness :
    demoGpt2.call 5 none false none = .error "key must be provided for training"
  ∧ demoGpt2.call 5 none true none =
      .ok (demoGpt2.unembed (demoGpt2.transformerApply
        (demoGpt2.embed 5 true (maybeRngSplit2 demoGpt2.split none).1)
        none true (maybeRngSplit2 demoGpt2.split none).2)) :=
  ⟨(gpt2_call_key_check demoGpt2 5 none false none).1 ⟨rfl, rfl⟩,
   (gpt2_call_key_check demoGpt2 5 none true none).2 (by simp)⟩

end Levanter
